import Mathlib

/-!
Verification of the core of `gemini-code-security-review`:
the findings filter (`geminicli/findings_filter.py`) and the resilient
JSON decoder (`geminicli/json_parser.py`), shallowly embedded as
executable Lean definitions over `List Char` / association lists.
-/

set_option maxHeartbeats 1000000

namespace GeminiSec

/-! ## Character and string helpers (Python semantics, ASCII fragment) -/

/-- Python `str.lower` restricted to ASCII (all categories, patterns and
file extensions in the repository are ASCII). -/
def pyLowerChar (c : Char) : Char :=
  if 'A' ≤ c ∧ c ≤ 'Z' then Char.ofNat (c.toNat + 32) else c

/-- Lowercase a character list. -/
def pyLower (l : List Char) : List Char := l.map pyLowerChar

/-- Python `str.strip` whitespace class (ASCII fragment). -/
def pyIsSpace (c : Char) : Bool :=
  c = ' ' || c = '\t' || c = '\n' || c = '\r' || c = '\x0b' || c = '\x0c'

/-- Python `str.strip`: drop whitespace from both ends. -/
def pyStrip (l : List Char) : List Char :=
  ((l.dropWhile pyIsSpace).reverse.dropWhile pyIsSpace).reverse

/-- Boolean "ends with": `suf` is a suffix of `l`
(via reversed prefix test, matching Python `str.endswith`). -/
def sufB (suf l : List Char) : Bool := suf.reverse.isPrefixOf l.reverse

/-! ## Regex fragment used by the exclusion rules

Every description pattern in `HardExclusionRules` is an alternation of
literal segments separated by single-character wildcards (re `.`,
which matches any character except a newline), searched
case-insensitively.  An alternative is compiled to its list of literal
segments; a pattern is a list of alternatives. -/

/-- Match one alternative (segments separated by one-char wildcards)
at the head of `s`. -/
def segsMatch : List (List Char) → List Char → Bool
  | [], _ => true
  | [seg], s => seg.isPrefixOf s
  | seg :: segs, s =>
    seg.isPrefixOf s &&
      (match s.drop seg.length with
       | [] => false
       | c :: s' => (c != '\n') && segsMatch segs s')

/-- Try the alternative at every start position (re `search`). -/
def searchFrom (a : List (List Char)) : List Char → Bool
  | [] => segsMatch a []
  | c :: s => segsMatch a (c :: s) || searchFrom a s

/-- Case-insensitive search of a compiled pattern (re `IGNORECASE`:
the haystack is lowercased; the patterns are already lowercase). -/
def reSearchCI (alts : List (List (List Char))) (s : List Char) : Bool :=
  alts.any (fun a => searchFrom a (pyLower s))

/-- Compile a pattern: each alternative is its list of literal segments. -/
def mkPat (xs : List (List String)) : List (List (List Char)) :=
  xs.map (fun a => a.map String.toList)

/-! ## `HardExclusionRules` pattern tables (findings_filter.py lines 27-89) -/

def DOS_PATTERNS : List (List (List Char)) := mkPat
  [[("denial"), ("of"), ("service")], [("dos"), ("attack")],
   [("resource"), ("exhaust")], [("cpu"), ("exhaust")],
   [("memory"), ("exhaust")], [("bandwidth"), ("exhaust")],
   [("disk"), ("exhaust")]]

def RATE_LIMITING_PATTERNS : List (List (List Char)) := mkPat
  [[("rate"), ("limit")], [("throttl")],
   [("brute"), ("force"), ("protection")], [("request"), ("flood")]]

def RESOURCE_PATTERNS : List (List (List Char)) := mkPat
  [[("memory"), ("leak")], [("file"), ("descriptor"), ("leak")],
   [("resource"), ("leak")], [("unclosed"), ("resource")],
   [("connection"), ("leak")]]

def OPEN_REDIRECT_PATTERNS : List (List (List Char)) := mkPat
  [[("open"), ("redirect")], [("unvalidated"), ("redirect")]]

def MEMORY_SAFETY_PATTERNS : List (List (List Char)) := mkPat
  [[("buffer"), ("overflow")], [("use"), ("after"), ("free")],
   [("out"), ("of"), ("bounds")], [("heap"), ("overflow")],
   [("stack"), ("overflow")], [("dangling"), ("pointer")]]

def REGEX_INJECTION_PATTERNS : List (List (List Char)) := mkPat
  [[("regex"), ("injection")], [("regexp"), ("injection")],
   [("redos")], [("regex"), ("dos")]]

def LOG_SPOOFING_PATTERNS : List (List (List Char)) := mkPat
  [[("log"), ("spoofing")], [("log"), ("injection")], [("log"), ("forging")]]

def MISSING_AUDIT_LOG_PATTERNS : List (List (List Char)) := mkPat
  [[("audit"), ("log")], [("missing"), ("log")], [("insufficient"), ("log")]]

def HARDENING_PATTERNS : List (List (List Char)) := mkPat
  [[("lack"), ("of"), ("hardening")], [("missing"), ("hardening")],
   [("should"), ("implement")], [("recommended"), ("to"), ("add")],
   [("best"), ("practice")]]

/-- `MEMORY_SAFE_LANGS = re.compile(r"\.(rs|go)$", re.IGNORECASE)` searched
against the file path.  Python `$` also matches just before a trailing
newline, hence the two extra disjuncts. -/
def memSafeLangSearch (fp : List Char) : Bool :=
  sufB (".rs".toList) (pyLower fp) || sufB (".go".toList) (pyLower fp) ||
  sufB (".rs\n".toList) (pyLower fp) || sufB (".go\n".toList) (pyLower fp)

def EXCLUDED_CATEGORIES : List (List Char) :=
  [("dos"), ("denial_of_service"), ("rate_limiting"), ("resource_exhaustion"),
   ("memory_leak"), ("regex_injection"), ("regex_dos"), ("log_spoofing"),
   ("open_redirect"), ("missing_audit_log")].map String.toList

/-- `_is_test_file` path fragments (findings_filter.py lines 135-139). -/
def TEST_PATTERNS : List (List Char) :=
  [("/test/"), ("/tests/"), ("/spec/"), ("/specs/"),
   ("_test."), (".test."), (".spec."), ("test_"), ("_spec.")].map String.toList

/-- Python `p in s` substring test. -/
def containsSub (p : List Char) : List Char → Bool
  | [] => p.isEmpty
  | c :: l => p.isPrefixOf (c :: l) || containsSub p l

/-- `_is_test_file`: any test fragment occurs in the lowercased path. -/
def isTestFile (fp : List Char) : Bool :=
  TEST_PATTERNS.any (fun p => containsSub p (pyLower fp))

/-- `file_path.endswith((".md", ".rst", ".txt", ".adoc"))` (case-sensitive). -/
def isDocFile (fp : List Char) : Bool :=
  sufB (".md".toList) fp || sufB (".rst".toList) fp ||
  sufB (".txt".toList) fp || sufB (".adoc".toList) fp

/-! ## Findings -/

/-- A finding is a string-keyed mapping; only string-valued fields are
read by the filter, so fields are modelled as strings.  Keys are unique
(Python dict); lookup takes the first matching key. -/
abbrev Finding : Type := List (String × String)

/-- `finding.get(k)`: first value stored under key `k`, if any. -/
def fget (f : Finding) (k : String) : Option String :=
  (f.find? (fun kv => kv.1 == k)).map (fun kv => kv.2)

/-- `finding.get(k, "")`: defaulted lookup. -/
def fgetD (f : Finding) (k : String) : String := (fget f k).getD ""

/-- Python `d[k] = v` on a (copied) dict: replace the value under `k`
if present, else append the new key at the end (insertion order). -/
def setKey (f : Finding) (k v : String) : Finding :=
  match f with
  | [] => [(k, v)]
  | (k', v') :: rest =>
    if k' == k then (k, v) :: rest else (k', v') :: setKey rest k v

/-- `category.lower().replace("-", "_")` (findings_filter.py line 94). -/
def normalizeCat (s : String) : List Char :=
  (pyLower s.toList).map (fun c => if c = '-' then '_' else c)

/-- `HardExclusionRules.get_exclusion_reason`, factored over the three
field values it reads (category already normalized). -/
def reasonCore (category description filePath : List Char) : Option String :=
  if EXCLUDED_CATEGORIES.contains category then
    some ("excluded_category:" ++ String.mk category)
  else if reSearchCI DOS_PATTERNS description then some ("dos_pattern")
  else if reSearchCI RATE_LIMITING_PATTERNS description then
    some ("rate_limiting_pattern")
  else if reSearchCI RESOURCE_PATTERNS description then
    some ("resource_leak_pattern")
  else if reSearchCI OPEN_REDIRECT_PATTERNS description then
    some ("open_redirect_pattern")
  else if reSearchCI REGEX_INJECTION_PATTERNS description then
    some ("regex_injection_pattern")
  else if reSearchCI LOG_SPOOFING_PATTERNS description then
    some ("log_spoofing_pattern")
  else if reSearchCI MISSING_AUDIT_LOG_PATTERNS description then
    some ("missing_audit_log_pattern")
  else if reSearchCI HARDENING_PATTERNS description then
    some ("hardening_best_practice")
  else if reSearchCI MEMORY_SAFETY_PATTERNS description &&
      memSafeLangSearch filePath then
    some ("memory_safety_in_safe_language")
  else if isTestFile filePath then some ("test_file_only")
  else if isDocFile filePath then some ("documentation_file")
  else none

/-- `HardExclusionRules.get_exclusion_reason(finding)`. -/
def getExclusionReason (f : Finding) : Option String :=
  reasonCore (normalizeCat (fgetD f ("category")))
    ((fgetD f ("description")).toList) ((fgetD f ("file")).toList)

/-! ## `FindingsFilter.filter_findings` -/

/-- Loop state of `filter_findings` (kept / excluded lists plus the
statistics counters updated inside the loop).  `runtime_seconds` is
wall-clock time and is outside the embedding. -/
structure FilterAcc where
  kept : List Finding
  excluded : List Finding
  hardExcluded : Nat
  breakdown : List (String × Nat)
deriving DecidableEq

/-- `stats.exclusion_breakdown[r] = stats.exclusion_breakdown.get(r, 0) + 1`:
increment the bucket, inserting it at the end on first occurrence. -/
def bump (b : List (String × Nat)) (r : String) : List (String × Nat) :=
  match b with
  | [] => [(r, 1)]
  | (k, n) :: rest =>
    if k == r then (k, n + 1) :: rest else (k, n) :: bump rest r

/-- One iteration of the `for finding in findings` loop. -/
def filterStep (useHard : Bool) (acc : FilterAcc) (f : Finding) : FilterAcc :=
  if useHard then
    match getExclusionReason f with
    | some r =>
      { acc with
        excluded := acc.excluded ++ [setKey f ("exclusion_reason") r],
        hardExcluded := acc.hardExcluded + 1,
        breakdown := bump acc.breakdown r }
    | none => { acc with kept := acc.kept ++ [f] }
  else { acc with kept := acc.kept ++ [f] }

/-- The whole loop. -/
def runFilter (useHard : Bool) (fs : List Finding) : FilterAcc :=
  fs.foldl (filterStep useHard) ⟨[], [], 0, []⟩

/-- The `analysis_summary` sub-dictionary of the result
(`runtime_seconds` omitted: wall clock). -/
structure AnalysisSummary where
  total_findings : Nat
  kept_findings : Nat
  excluded_findings : Nat
  exclusion_breakdown : List (String × Nat)
deriving DecidableEq

/-- The `result` dictionary returned by `filter_findings`. -/
structure FilterResult where
  filtered_findings : List Finding
  excluded_findings : List Finding
  analysis_summary : AnalysisSummary
deriving DecidableEq

/-- `FilterStats` (dataclass), `runtime_seconds` omitted (wall clock). -/
structure FilterStats where
  total_findings : Nat
  hard_excluded : Nat
  kept_findings : Nat
  exclusion_breakdown : List (String × Nat)
deriving DecidableEq

/-- `FindingsFilter.filter_findings`: returns `(True, result, stats)`. -/
def filterFindings (useHard : Bool) (fs : List Finding) :
    Bool × FilterResult × FilterStats :=
  let acc := runFilter useHard fs
  (true,
   { filtered_findings := acc.kept,
     excluded_findings := acc.excluded,
     analysis_summary :=
       { total_findings := fs.length,
         kept_findings := acc.kept.length,
         excluded_findings := acc.excluded.length,
         exclusion_breakdown := acc.breakdown } },
   { total_findings := fs.length,
     hard_excluded := acc.hardExcluded,
     kept_findings := acc.kept.length,
     exclusion_breakdown := acc.breakdown })

/-- The keep predicate realized by the loop. -/
def keepP (useHard : Bool) (f : Finding) : Bool :=
  !(useHard && (getExclusionReason f).isSome)

/-- The excluded-entry constructor realized by the loop. -/
def exclF (useHard : Bool) (f : Finding) : Option Finding :=
  if useHard then
    (getExclusionReason f).map (fun r => setKey f ("exclusion_reason") r)
  else none

/-- Sum of the values of the exclusion-breakdown mapping. -/
def sumVals (b : List (String × Nat)) : Nat := (b.map (fun kv => kv.2)).sum

/-- The sequence of exclusion reasons produced by the loop, in order. -/
def reasonsOf (u : Bool) (fs : List Finding) : List String :=
  fs.filterMap (fun f => if u then getExclusionReason f else none)

/-! ## JSON values and a model of Python `json.loads`

Numbers keep their source lexeme (the claims never compare numeric
values across different lexemes).  Lone `\uXXXX` surrogate escapes are
rejected rather than paired, a simplification the claims never touch. -/

inductive JsonVal where
  | null
  | bool (b : Bool)
  | num (lexeme : String)
  | str (s : String)
  | arr (items : List JsonVal)
  | obj (fields : List (String × JsonVal))

/-- JSON inter-token whitespace (`json` module: space, tab, LF, CR). -/
def jsonSkipWs (l : List Char) : List Char :=
  l.dropWhile (fun c => c = ' ' || c = '\t' || c = '\n' || c = '\r')

/-- Hex digit value. -/
def hexVal (c : Char) : Option Nat :=
  if '0' ≤ c ∧ c ≤ '9' then some (c.toNat - ('0').toNat)
  else if 'a' ≤ c ∧ c ≤ 'f' then some (c.toNat - ('a').toNat + 10)
  else if 'A' ≤ c ∧ c ≤ 'F' then some (c.toNat - ('A').toNat + 10)
  else none

/-- Body of a JSON string after the opening quote: returns the decoded
content and the remainder after the closing quote. -/
def parseStringBody : List Char → Option (List Char × List Char)
  | [] => none
  | '"' :: rest => some ([], rest)
  | '\\' :: 'u' :: h1 :: h2 :: h3 :: h4 :: rest =>
    (match hexVal h1, hexVal h2, hexVal h3, hexVal h4 with
     | some a, some b, some c, some d =>
       let code := ((a * 16 + b) * 16 + c) * 16 + d
       if 0xd800 ≤ code ∧ code ≤ 0xdfff then none
       else (parseStringBody rest).map (fun p => (Char.ofNat code :: p.1, p.2))
     | _, _, _, _ => none)
  | '\\' :: e :: rest =>
    (match (if e = '"' then some '"'
            else if e = '\\' then some '\\'
            else if e = '/' then some '/'
            else if e = 'b' then some '\x08'
            else if e = 'f' then some '\x0c'
            else if e = 'n' then some '\n'
            else if e = 'r' then some '\r'
            else if e = 't' then some '\t'
            else none) with
     | some d => (parseStringBody rest).map (fun p => (d :: p.1, p.2))
     | none => none)
  | ['\\'] => none
  | c :: rest =>
    if c.toNat < 32 then none
    else (parseStringBody rest).map (fun p => (c :: p.1, p.2))

/-- Leading run of decimal digits. -/
def digitsSpan (l : List Char) : List Char × List Char :=
  (l.takeWhile Char.isDigit, l.dropWhile Char.isDigit)

/-- JSON integer part: `0` or a nonzero-led digit run. -/
def parseIntPart : List Char → Option (List Char × List Char)
  | [] => none
  | '0' :: rest => some (['0'], rest)
  | c :: rest =>
    if c.isDigit then
      let p := digitsSpan rest
      some (c :: p.1, p.2)
    else none

/-- Optional JSON fraction part `.digits`. -/
def parseFracPart : List Char → Option (List Char × List Char)
  | '.' :: rest =>
    let p := digitsSpan rest
    if p.1.isEmpty then none else some ('.' :: p.1, p.2)
  | l => some ([], l)

/-- Optional JSON exponent part `[eE][+-]?digits`. -/
def parseExpPart : List Char → Option (List Char × List Char)
  | [] => some ([], [])
  | c :: rest =>
    if c = 'e' ∨ c = 'E' then
      match rest with
      | [] => none
      | s :: rest' =>
        if s = '+' ∨ s = '-' then
          let p := digitsSpan rest'
          if p.1.isEmpty then none else some (c :: s :: p.1, p.2)
        else
          let p := digitsSpan rest
          if p.1.isEmpty then none else some (c :: p.1, p.2)
    else some ([], c :: rest)

/-- Unsigned JSON number starting at the head. -/
def parseNumTail (l : List Char) : Option (List Char × List Char) :=
  match parseIntPart l with
  | none => none
  | some (ip, r1) =>
    match parseFracPart r1 with
    | none => none
    | some (fr, r2) =>
      match parseExpPart r2 with
      | none => none
      | some (ex, r3) => some (ip ++ fr ++ ex, r3)

/-- JSON number (with optional leading minus); returns the lexeme. -/
def parseNumber : List Char → Option (List Char × List Char)
  | [] => none
  | c :: rest =>
    if c = '-' then (parseNumTail rest).map (fun p => ('-' :: p.1, p.2))
    else parseNumTail (c :: rest)

mutual

/-- One JSON value (leading whitespace skipped), with fuel. -/
def parseValue : Nat → List Char → Option (JsonVal × List Char)
  | 0, _ => none
  | Nat.succ fuel, s0 =>
    let s := jsonSkipWs s0
    if "true".toList.isPrefixOf s then some (JsonVal.bool true, s.drop 4)
    else if "false".toList.isPrefixOf s then some (JsonVal.bool false, s.drop 5)
    else if "null".toList.isPrefixOf s then some (JsonVal.null, s.drop 4)
    else if "NaN".toList.isPrefixOf s then some (JsonVal.num ("NaN"), s.drop 3)
    else if "Infinity".toList.isPrefixOf s then
      some (JsonVal.num ("Infinity"), s.drop 8)
    else if "-Infinity".toList.isPrefixOf s then
      some (JsonVal.num ("-Infinity"), s.drop 9)
    else
      match s with
      | '"' :: rest =>
        (parseStringBody rest).map (fun p => (JsonVal.str (String.mk p.1), p.2))
      | '\x7b' :: rest =>
        (match jsonSkipWs rest with
         | '\x7d' :: r2 => some (JsonVal.obj [], r2)
         | r1 => (parseObjRest fuel r1).map (fun p => (JsonVal.obj p.1, p.2)))
      | '[' :: rest =>
        (match jsonSkipWs rest with
         | ']' :: r2 => some (JsonVal.arr [], r2)
         | r1 => (parseArrRest fuel r1).map (fun p => (JsonVal.arr p.1, p.2)))
      | _ => (parseNumber s).map (fun p => (JsonVal.num (String.mk p.1), p.2))

/-- Nonempty tail of a JSON array (after `[`, first element onward). -/
def parseArrRest : Nat → List Char → Option (List JsonVal × List Char)
  | 0, _ => none
  | Nat.succ fuel, s =>
    match parseValue fuel s with
    | none => none
    | some (v, r) =>
      match jsonSkipWs r with
      | ',' :: r' => (parseArrRest fuel r').map (fun p => (v :: p.1, p.2))
      | ']' :: r' => some ([v], r')
      | _ => none

/-- Nonempty tail of a JSON object (after the opening brace). -/
def parseObjRest : Nat → List Char → Option (List (String × JsonVal) × List Char)
  | 0, _ => none
  | Nat.succ fuel, s =>
    match jsonSkipWs s with
    | '"' :: r =>
      (match parseStringBody r with
       | none => none
       | some (k, r1) =>
         match jsonSkipWs r1 with
         | ':' :: r2 =>
           (match parseValue fuel r2 with
            | none => none
            | some (v, r3) =>
              match jsonSkipWs r3 with
              | ',' :: r4 =>
                (parseObjRest fuel r4).map
                  (fun p => ((String.mk k, v) :: p.1, p.2))
              | '\x7d' :: r4 => some ([(String.mk k, v)], r4)
              | _ => none)
         | _ => none)
    | _ => none

end

/-- Model of `json.loads`: parse one value, then require only trailing
whitespace ("Extra data" otherwise). -/
def parseJson (s : List Char) : Option JsonVal :=
  match parseValue (2 * s.length + 2) s with
  | some (v, rest) => if (jsonSkipWs rest).isEmpty then some v else none
  | none => none

/-! ## `parse_json_with_fallbacks` (json_parser.py) -/

/-- Characters strictly before the first triple-backtick marker. -/
def fenceInner : List Char → Option (List Char)
  | [] => none
  | c :: cs =>
    if "```".toList.isPrefixOf (c :: cs) then some []
    else (fenceInner cs).map (fun l => c :: l)

/-- First position where `openM` occurs and is followed (possibly after
other text) by a closing triple backtick; returns the enclosed text.
Models the leftmost match of the lazy fenced-block regexes. -/
def findFence (openM : List Char) : List Char → Option (List Char)
  | [] => none
  | c :: cs =>
    match (if openM.isPrefixOf (c :: cs)
           then fenceInner ((c :: cs).drop openM.length)
           else none) with
    | some inner => some inner
    | none => findFence openM cs

/-- Strategy 2: markdown code blocks, the ```json-tagged pattern first,
then the untagged pattern; the matched interior is stripped and parsed. -/
def fenced (cs : List Char) : Option JsonVal :=
  let try1 :=
    match findFence ("```json".toList) cs with
    | some inner => parseJson (pyStrip inner)
    | none => none
  match try1 with
  | some v => some v
  | none =>
    match findFence ("```".toList) cs with
    | some inner => parseJson (pyStrip inner)
    | none => none

/-- Suffix of the list starting at the first occurrence of `c`
(Python `text.find(c)`), if any. -/
def dropUntilChar (c : Char) : List Char → Option (List Char)
  | [] => none
  | x :: xs => if x = c then some (x :: xs) else dropUntilChar c xs

/-- The bracket-depth scan of strategy 3 (json_parser.py lines 59-92):
walk the text accumulating the candidate, tracking string/escape state;
when depth returns to zero the candidate substring is produced.  A text
whose depth never returns to zero yields no candidate. -/
def scanBody (sc ec : Char) (acc : List Char) (s : List Char) (depth : Int)
    (inStr esc : Bool) : Option (List Char) :=
  match s with
  | [] => none
  | c :: rest =>
    if esc then scanBody sc ec (acc ++ [c]) rest depth inStr false
    else if c == '\\' && inStr then
      scanBody sc ec (acc ++ [c]) rest depth inStr true
    else if c == '"' then scanBody sc ec (acc ++ [c]) rest depth (!inStr) false
    else if inStr then scanBody sc ec (acc ++ [c]) rest depth inStr false
    else if c == sc then scanBody sc ec (acc ++ [c]) rest (depth + 1) inStr false
    else if c == ec then
      if depth - 1 = 0 then some (acc ++ [c])
      else scanBody sc ec (acc ++ [c]) rest (depth - 1) inStr false
    else scanBody sc ec (acc ++ [c]) rest depth inStr false

/-- Strategy 3 for one delimiter pair: scan from the first occurrence of
the opening delimiter; parse the first depth-zero candidate; a parse
failure abandons this delimiter (the source `break`s). -/
def tryDelim (sc ec : Char) (cs : List Char) : Option JsonVal :=
  match dropUntilChar sc cs with
  | none => none
  | some suff =>
    match scanBody sc ec [] suff 0 false false with
    | none => none
    | some cand => parseJson cand

/-- `parse_json_with_fallbacks`: empty/whitespace guard, then direct
parse of the stripped text, then fenced blocks, then bracket scans for
braces and brackets (in that order); `(False, None)` when all fail.
The `context` argument only feeds logging and is omitted. -/
def decode (text : String) : Bool × Option JsonVal :=
  let cs := text.toList
  if (pyStrip cs).isEmpty then (false, none)
  else
    match parseJson (pyStrip cs) with
    | some v => (true, some v)
    | none =>
      match fenced cs with
      | some v => (true, some v)
      | none =>
        match tryDelim '\x7b' '\x7d' cs with
        | some v => (true, some v)
        | none =>
          match tryDelim '[' ']' cs with
          | some v => (true, some v)
          | none => (false, none)

/-! ## Concrete example inputs -/

/-- The denial-of-service finding of the spec's example scenario. -/
def dosF : Finding := [("category", "dos"), ("description", "x")]

/-- The SQL-injection finding of the spec's example scenario. -/
def sqliF : Finding :=
  [("category", "sqli"),
   ("description", "SQL injection via unescaped input"),
   ("file", "app.py")]

/-- Prose prefix of the quote-awareness example text. -/
def c2pre : List Char := "Result: ok then ".toList

/-- Suffix of the example text starting at its first opening brace. -/
def c2rest : List Char :=
  "\x7b\"msg\": \"use \x7b and \x7d here\", \"n\": 1\x7d tail \x7d".toList

/-- The quote-awareness example text: a JSON object whose string field
contains braces, embedded in prose with a stray closing brace after. -/
def c2text : String :=
  "Result: ok then \x7b\"msg\": \"use \x7b and \x7d here\", \"n\": 1\x7d tail \x7d"

/-- The balanced bracketed region of `c2text`. -/
def c2region : List Char :=
  "\x7b\"msg\": \"use \x7b and \x7d here\", \"n\": 1\x7d".toList

/-- The parsed value of `c2region`. -/
def c2val : JsonVal :=
  JsonVal.obj [("msg", JsonVal.str ("use \x7b and \x7d here")),
               ("n", JsonVal.num ("1"))]

/-! # Lemmas about the filter loop -/

theorem fget_setKey_self (f : Finding) (k v : String) :
    fget (setKey f k v) k = some v := by
  induction f with
  | nil => simp [setKey, fget]
  | cons kv rest ih =>
    obtain ⟨a, b⟩ := kv
    by_cases h : a == k
    · simp [setKey, h, fget]
    · simpa [setKey, h, fget] using ih

theorem fget_setKey_ne (f : Finding) (k v k' : String) (h : k' ≠ k) :
    fget (setKey f k v) k' = fget f k' := by
  induction f with
  | nil =>
    simp [setKey, fget, beq_eq_false_iff_ne.mpr (Ne.symm h)]
  | cons kv rest ih =>
    obtain ⟨a, b⟩ := kv
    by_cases ha : a == k
    · have ha' : a = k := eq_of_beq ha
      subst ha'
      simp [setKey, fget, beq_eq_false_iff_ne.mpr (Ne.symm h)]
    · by_cases hak : a == k'
      · simp [setKey, ha, fget, hak]
      · simpa [setKey, ha, fget, hak] using ih

theorem foldl_filterStep_eq (u : Bool) (fs : List Finding) : ∀ acc : FilterAcc,
    fs.foldl (filterStep u) acc =
      { kept := acc.kept ++ fs.filter (keepP u),
        excluded := acc.excluded ++ fs.filterMap (exclF u),
        hardExcluded := acc.hardExcluded + (reasonsOf u fs).length,
        breakdown := (reasonsOf u fs).foldl bump acc.breakdown } := by
  induction fs with
  | nil => intro acc; simp [reasonsOf]
  | cons f rest ih =>
    intro acc
    rw [List.foldl_cons, ih]
    cases u with
    | false =>
      simp [filterStep, keepP, exclF, reasonsOf, List.filter_cons,
        List.filterMap_cons]
    | true =>
      cases hr : getExclusionReason f with
      | none =>
        simp [filterStep, keepP, exclF, reasonsOf, hr, List.filter_cons,
          List.filterMap_cons]
      | some r =>
        simp [filterStep, keepP, exclF, reasonsOf, hr, List.filter_cons,
          List.filterMap_cons]
        omega

theorem runFilter_eq (u : Bool) (fs : List Finding) :
    runFilter u fs =
      { kept := fs.filter (keepP u),
        excluded := fs.filterMap (exclF u),
        hardExcluded := (reasonsOf u fs).length,
        breakdown := (reasonsOf u fs).foldl bump [] } := by
  rw [runFilter, foldl_filterStep_eq]
  simp

theorem keep_excl_length (u : Bool) (fs : List Finding) :
    (fs.filter (keepP u)).length + (fs.filterMap (exclF u)).length
      = fs.length := by
  induction fs with
  | nil => simp
  | cons f rest ih =>
    cases u with
    | false =>
      simp only [keepP, exclF, List.filter_cons, List.filterMap_cons]
      simp
      omega
    | true =>
      cases hr : getExclusionReason f with
      | none =>
        simp [keepP, exclF, hr, List.filter_cons, List.filterMap_cons]
        omega
      | some r =>
        simp [keepP, exclF, hr, List.filter_cons, List.filterMap_cons]
        omega

theorem exclF_reasons_length (u : Bool) (fs : List Finding) :
    (fs.filterMap (exclF u)).length = (reasonsOf u fs).length := by
  induction fs with
  | nil => simp [reasonsOf]
  | cons f rest ih =>
    cases u with
    | false => simpa [exclF, reasonsOf, List.filterMap_cons] using ih
    | true =>
      cases hr : getExclusionReason f with
      | none => simpa [exclF, reasonsOf, hr, List.filterMap_cons] using ih
      | some r => simpa [exclF, reasonsOf, hr, List.filterMap_cons] using ih

theorem sumVals_bump (b : List (String × Nat)) (r : String) :
    sumVals (bump b r) = sumVals b + 1 := by
  induction b with
  | nil => simp [bump, sumVals]
  | cons kv rest ih =>
    obtain ⟨k, n⟩ := kv
    by_cases h : k == r
    · simp [bump, h, sumVals]
      omega
    · simp only [bump, h, if_neg] at *
      simp [sumVals] at *
      omega

theorem sumVals_foldl_bump (rs : List String) : ∀ b,
    sumVals (rs.foldl bump b) = sumVals b + rs.length := by
  induction rs with
  | nil => intro b; simp
  | cons r rest ih =>
    intro b
    rw [List.foldl_cons, ih, sumVals_bump, List.length_cons]
    omega

/-! # Claim theorems -/

/-- C1: `filter_findings` partitions its input.  The kept sequence is
exactly the sub-sequence of inputs no rule excludes, the excluded
sequence is exactly the reason-tagged copies of the remaining inputs in
order (each input finding thus lands in exactly one of the two output
sequences), and `len(kept) + len(excluded)` equals the
`total_findings` count of the returned stats — for every engine
configuration and input list. -/
theorem c1_filter_partitions (u : Bool) (fs : List Finding) :
    (filterFindings u fs).2.1.filtered_findings = fs.filter (keepP u) ∧
    (filterFindings u fs).2.1.excluded_findings = fs.filterMap (exclF u) ∧
    (filterFindings u fs).2.1.filtered_findings.length +
        (filterFindings u fs).2.1.excluded_findings.length =
      (filterFindings u fs).2.2.total_findings := by
  refine ⟨?_, ?_, ?_⟩ <;>
    simp [filterFindings, runFilter_eq, keep_excl_length]

/-- C4: filtering is idempotent on the kept set.  Re-filtering the kept
sequence with the same configuration returns it unchanged, with an
empty excluded sequence and zero hard exclusions. -/
theorem c4_filter_idempotent (u : Bool) (fs : List Finding) :
    (filterFindings u
        ((filterFindings u fs).2.1.filtered_findings)).2.1.filtered_findings
      = (filterFindings u fs).2.1.filtered_findings ∧
    (filterFindings u
        ((filterFindings u fs).2.1.filtered_findings)).2.1.excluded_findings
      = [] ∧
    (filterFindings u
        ((filterFindings u fs).2.1.filtered_findings)).2.2.hard_excluded
      = 0 := by
  have hkept : (filterFindings u fs).2.1.filtered_findings
      = fs.filter (keepP u) := by
    simp [filterFindings, runFilter_eq]
  have hall : ∀ f ∈ fs.filter (keepP u), keepP u f = true :=
    fun f hf => List.of_mem_filter hf
  have hexcl : (fs.filter (keepP u)).filterMap (exclF u) = [] := by
    rw [List.filterMap_eq_nil_iff]
    intro a ha
    have hp := hall a ha
    cases u with
    | false => simp [exclF]
    | true =>
      cases hr : getExclusionReason a with
      | none => simp [exclF, hr]
      | some r => rw [keepP, hr] at hp; simp at hp
  have hlen : ((fs.filter (keepP u)).filterMap (exclF u)).length
      = (reasonsOf u (fs.filter (keepP u))).length :=
    exclF_reasons_length u (fs.filter (keepP u))
  rw [hexcl] at hlen
  refine ⟨?_, ?_, ?_⟩ <;>
    simp [hkept, filterFindings, runFilter_eq, hexcl,
      List.filter_eq_self.mpr hall, ← hlen]

/-- C10: the returned statistics are internally consistent for every
input: `hard_excluded + kept_findings = total_findings`, the values of
the exclusion breakdown sum to `hard_excluded`, and the analysis
summary counts equal the lengths of the returned finding sequences. -/
theorem c10_stats_consistent (u : Bool) (fs : List Finding) :
    (filterFindings u fs).2.2.hard_excluded
        + (filterFindings u fs).2.2.kept_findings
      = (filterFindings u fs).2.2.total_findings ∧
    sumVals (filterFindings u fs).2.2.exclusion_breakdown
      = (filterFindings u fs).2.2.hard_excluded ∧
    (filterFindings u fs).2.1.analysis_summary.total_findings = fs.length ∧
    (filterFindings u fs).2.1.analysis_summary.kept_findings
      = (filterFindings u fs).2.1.filtered_findings.length ∧
    (filterFindings u fs).2.1.analysis_summary.excluded_findings
      = (filterFindings u fs).2.1.excluded_findings.length := by
  have h1 := keep_excl_length u fs
  have h2 := exclF_reasons_length u fs
  refine ⟨?_, ?_, rfl, rfl, rfl⟩
  · simp [filterFindings, runFilter_eq]
    omega
  · have h3 := sumVals_foldl_bump (reasonsOf u fs) []
    simp [sumVals] at h3
    simp [filterFindings, runFilter_eq, sumVals, h3]

/-- C5: category matching is case- and separator-insensitive.  Two
findings with equal description and file fields whose categories agree
after lowercasing and mapping hyphens to underscores receive the same
exclusion outcome (same reason, or both kept). -/
theorem c5_category_normalization (f g : Finding)
    (hd : fgetD f ("description") = fgetD g ("description"))
    (hf : fgetD f ("file") = fgetD g ("file"))
    (hc : normalizeCat (fgetD f ("category"))
        = normalizeCat (fgetD g ("category"))) :
    getExclusionReason f = getExclusionReason g := by
  unfold getExclusionReason
  rw [hd, hf, hc]

/-- Witness for C5 at the spec's example pair: `"Rate-Limiting"`
and `"rate_limiting"` are treated identically, both excluded with the
normalized reason `excluded_category:rate_limiting`. -/
theorem c5_category_normalization_witness :
    normalizeCat (fgetD
        ([("category", "Rate-Limiting"), ("description", "z")]) ("category"))
      = normalizeCat (fgetD
        ([("category", "rate_limiting"), ("description", "z")]) ("category")) ∧
    getExclusionReason [("category", "Rate-Limiting"), ("description", "z")]
      = getExclusionReason [("category", "rate_limiting"), ("description", "z")] ∧
    getExclusionReason [("category", "rate_limiting"), ("description", "z")]
      = some ("excluded_category:rate_limiting") :=
  ⟨rfl, c5_category_normalization _ _ rfl rfl rfl, rfl⟩

theorem excl_cat_ne_ms (cat : List Char) :
    ("excluded_category:" ++ String.mk cat)
      ≠ ("memory_safety_in_safe_language") := by
  intro h
  have h1 : ("excluded_category:" ++ String.mk cat).data
      = ("memory_safety_in_safe_language").data := congrArg String.data h
  rw [String.data_append] at h1
  have h2 : ('e' :: ("xcluded_category:").data) ++ (String.mk cat).data
      = 'm' :: ("emory_safety_in_safe_language").data := h1
  simp at h2

/-- A path ending in `.py` never matches the memory-safe-language
extension pattern. -/
theorem memSafeLangSearch_append_py (p : List Char) :
    memSafeLangSearch (p ++ ['.', 'p', 'y']) = false := by
  have e1 : (".rs".toList) = ['.', 'r', 's'] := rfl
  have e2 : (".go".toList) = ['.', 'g', 'o'] := rfl
  have e3 : (".rs\n".toList) = ['.', 'r', 's', '\n'] := rfl
  have e4 : (".go\n".toList) = ['.', 'g', 'o', '\n'] := rfl
  unfold memSafeLangSearch sufB pyLower
  rw [e1, e2, e3, e4, List.map_append]
  simp [pyLowerChar, List.reverse_append, List.isPrefixOf]

/-- A path ending in `.rs` always matches the memory-safe-language
extension pattern. -/
theorem memSafeLangSearch_append_rs (q : List Char) :
    memSafeLangSearch (q ++ ['.', 'r', 's']) = true := by
  have e1 : (".rs".toList) = ['.', 'r', 's'] := rfl
  unfold memSafeLangSearch sufB pyLower
  rw [e1, List.map_append]
  simp [pyLowerChar, List.reverse_append, List.isPrefixOf]

theorem reasonCore_ms_only (cat d fp : List Char)
    (h : reasonCore cat d fp = some ("memory_safety_in_safe_language")) :
    reSearchCI MEMORY_SAFETY_PATTERNS d = true
      ∧ memSafeLangSearch fp = true := by
  unfold reasonCore at h
  by_cases c0 : EXCLUDED_CATEGORIES.contains cat = true
  · rw [if_pos c0] at h
    exact absurd (Option.some.inj h) (excl_cat_ne_ms cat)
  · rw [if_neg c0] at h
    by_cases c1 : reSearchCI DOS_PATTERNS d = true
    · rw [if_pos c1] at h; simp at h
    · rw [if_neg c1] at h
      by_cases c2 : reSearchCI RATE_LIMITING_PATTERNS d = true
      · rw [if_pos c2] at h; simp at h
      · rw [if_neg c2] at h
        by_cases c3 : reSearchCI RESOURCE_PATTERNS d = true
        · rw [if_pos c3] at h; simp at h
        · rw [if_neg c3] at h
          by_cases c4 : reSearchCI OPEN_REDIRECT_PATTERNS d = true
          · rw [if_pos c4] at h; simp at h
          · rw [if_neg c4] at h
            by_cases c5 : reSearchCI REGEX_INJECTION_PATTERNS d = true
            · rw [if_pos c5] at h; simp at h
            · rw [if_neg c5] at h
              by_cases c6 : reSearchCI LOG_SPOOFING_PATTERNS d = true
              · rw [if_pos c6] at h; simp at h
              · rw [if_neg c6] at h
                by_cases c7 : reSearchCI MISSING_AUDIT_LOG_PATTERNS d = true
                · rw [if_pos c7] at h; simp at h
                · rw [if_neg c7] at h
                  by_cases c8 : reSearchCI HARDENING_PATTERNS d = true
                  · rw [if_pos c8] at h; simp at h
                  · rw [if_neg c8] at h
                    by_cases c9 : (reSearchCI MEMORY_SAFETY_PATTERNS d
                        && memSafeLangSearch fp) = true
                    · exact Bool.and_eq_true _ _ ▸ c9
                    · rw [if_neg c9] at h
                      by_cases c10 : isTestFile fp = true
                      · rw [if_pos c10] at h; simp at h
                      · rw [if_neg c10] at h
                        by_cases c11 : isDocFile fp = true
                        · rw [if_pos c11] at h; simp at h
                        · rw [if_neg c11] at h; simp at h

theorem keep_buffer_overflow_py (f : Finding) (p : List Char)
    (hcat : EXCLUDED_CATEGORIES.contains
      (normalizeCat (fgetD f ("category"))) = false)
    (hdesc : fgetD f ("description") = "buffer overflow")
    (hfile : (fgetD f ("file")).toList = p ++ ['.', 'p', 'y'])
    (htest : isTestFile ((fgetD f ("file")).toList) = false)
    (hdoc : isDocFile ((fgetD f ("file")).toList) = false) :
    (filterFindings true [f]).2.1.filtered_findings = [f] ∧
    (filterFindings true [f]).2.1.excluded_findings = [] := by
  have h1 : reSearchCI DOS_PATTERNS ("buffer overflow".toList) = false := rfl
  have h2 : reSearchCI RATE_LIMITING_PATTERNS ("buffer overflow".toList)
      = false := rfl
  have h3 : reSearchCI RESOURCE_PATTERNS ("buffer overflow".toList)
      = false := rfl
  have h4 : reSearchCI OPEN_REDIRECT_PATTERNS ("buffer overflow".toList)
      = false := rfl
  have h5 : reSearchCI REGEX_INJECTION_PATTERNS ("buffer overflow".toList)
      = false := rfl
  have h6 : reSearchCI LOG_SPOOFING_PATTERNS ("buffer overflow".toList)
      = false := rfl
  have h7 : reSearchCI MISSING_AUDIT_LOG_PATTERNS ("buffer overflow".toList)
      = false := rfl
  have h8 : reSearchCI HARDENING_PATTERNS ("buffer overflow".toList)
      = false := rfl
  have hbo : reSearchCI MEMORY_SAFETY_PATTERNS ("buffer overflow".toList)
      = true := rfl
  rw [hfile] at htest hdoc
  have hreason : getExclusionReason f = none := by
    unfold getExclusionReason reasonCore
    rw [hdesc, hfile, hcat, h1, h2, h3, h4, h5, h6, h7, h8, hbo,
      memSafeLangSearch_append_py, htest, hdoc]
    simp
  constructor <;> simp [filterFindings, runFilter_eq, keepP, exclF, hreason]

theorem exclude_buffer_overflow_rs (g : Finding) (q : List Char)
    (hcat : EXCLUDED_CATEGORIES.contains
      (normalizeCat (fgetD g ("category"))) = false)
    (hdesc : fgetD g ("description") = "buffer overflow")
    (hfile : (fgetD g ("file")).toList = q ++ ['.', 'r', 's']) :
    getExclusionReason g = some ("memory_safety_in_safe_language") ∧
    (filterFindings true [g]).2.1.filtered_findings = [] ∧
    (filterFindings true [g]).2.1.excluded_findings =
      [setKey g ("exclusion_reason") ("memory_safety_in_safe_language")] := by
  have h1 : reSearchCI DOS_PATTERNS ("buffer overflow".toList) = false := rfl
  have h2 : reSearchCI RATE_LIMITING_PATTERNS ("buffer overflow".toList)
      = false := rfl
  have h3 : reSearchCI RESOURCE_PATTERNS ("buffer overflow".toList)
      = false := rfl
  have h4 : reSearchCI OPEN_REDIRECT_PATTERNS ("buffer overflow".toList)
      = false := rfl
  have h5 : reSearchCI REGEX_INJECTION_PATTERNS ("buffer overflow".toList)
      = false := rfl
  have h6 : reSearchCI LOG_SPOOFING_PATTERNS ("buffer overflow".toList)
      = false := rfl
  have h7 : reSearchCI MISSING_AUDIT_LOG_PATTERNS ("buffer overflow".toList)
      = false := rfl
  have h8 : reSearchCI HARDENING_PATTERNS ("buffer overflow".toList)
      = false := rfl
  have hbo : reSearchCI MEMORY_SAFETY_PATTERNS ("buffer overflow".toList)
      = true := rfl
  have hreason : getExclusionReason g
      = some ("memory_safety_in_safe_language") := by
    unfold getExclusionReason reasonCore
    rw [hdesc, hfile, hcat, h1, h2, h3, h4, h5, h6, h7, h8, hbo,
      memSafeLangSearch_append_rs]
    simp
  refine ⟨hreason, ?_, ?_⟩ <;>
    simp [filterFindings, runFilter_eq, keepP, exclF, hreason]

/-- C3: the memory-safety exclusion fires only when both of its
conditions hold jointly.  (a) Whenever `get_exclusion_reason` returns
`memory_safety_in_safe_language`, the description matched the
memory-safety pattern and the file matched the memory-safe-language
extension pattern.  (b) A finding with description "buffer overflow",
a non-excluded category, and a non-test, non-documentation file path
ending in `.py` is kept.  (c) The same description with a file path
ending in `.rs` is excluded with reason
`memory_safety_in_safe_language`. -/
theorem c3_memory_safety_joint :
    (∀ cat d fp, reasonCore cat d fp = some ("memory_safety_in_safe_language") →
      reSearchCI MEMORY_SAFETY_PATTERNS d = true ∧ memSafeLangSearch fp = true) ∧
    (∀ (f : Finding) (p : List Char),
      EXCLUDED_CATEGORIES.contains (normalizeCat (fgetD f ("category"))) = false →
      fgetD f ("description") = "buffer overflow" →
      (fgetD f ("file")).toList = p ++ ['.', 'p', 'y'] →
      isTestFile ((fgetD f ("file")).toList) = false →
      isDocFile ((fgetD f ("file")).toList) = false →
      (filterFindings true [f]).2.1.filtered_findings = [f] ∧
      (filterFindings true [f]).2.1.excluded_findings = []) ∧
    (∀ (g : Finding) (q : List Char),
      EXCLUDED_CATEGORIES.contains (normalizeCat (fgetD g ("category"))) = false →
      fgetD g ("description") = "buffer overflow" →
      (fgetD g ("file")).toList = q ++ ['.', 'r', 's'] →
      getExclusionReason g = some ("memory_safety_in_safe_language") ∧
      (filterFindings true [g]).2.1.filtered_findings = [] ∧
      (filterFindings true [g]).2.1.excluded_findings =
        [setKey g ("exclusion_reason") ("memory_safety_in_safe_language")]) :=
  ⟨reasonCore_ms_only,
   fun f p hcat hdesc hfile htest hdoc =>
     keep_buffer_overflow_py f p hcat hdesc hfile htest hdoc,
   fun g q hcat hdesc hfile =>
     exclude_buffer_overflow_rs g q hcat hdesc hfile⟩

/-- Witness for C3: a buffer-overflow description on `src/main.py` is
kept; the same description on `src/main.rs` is excluded with reason
`memory_safety_in_safe_language`. -/
theorem c3_memory_safety_joint_witness :
    (filterFindings true
        [[("category", "memory_safety"),
          ("description", "buffer overflow"),
          ("file", "src/main.py")]]).2.1.filtered_findings
      = [[("category", "memory_safety"),
          ("description", "buffer overflow"),
          ("file", "src/main.py")]] ∧
    getExclusionReason
        [("category", "memory_safety"),
         ("description", "buffer overflow"),
         ("file", "src/main.rs")]
      = some ("memory_safety_in_safe_language") :=
  ⟨(c3_memory_safety_joint.2.1
      [("category", "memory_safety"),
       ("description", "buffer overflow"),
       ("file", "src/main.py")]
      ("src/main".toList) rfl rfl rfl rfl rfl).1,
   (c3_memory_safety_joint.2.2
      [("category", "memory_safety"),
       ("description", "buffer overflow"),
       ("file", "src/main.rs")]
      ("src/main".toList) rfl rfl rfl).1⟩

/-- C8: malformed findings fail open.  When the category, description
and file fields are all absent, the lookups default to empty strings,
no exclusion rule matches, and the finding is kept unchanged. -/
theorem c8_missing_fields_fail_open (f : Finding)
    (hc : fget f ("category") = none)
    (hd : fget f ("description") = none)
    (hf : fget f ("file") = none) :
    getExclusionReason f = none ∧
    (filterFindings true [f]).2.1.filtered_findings = [f] ∧
    (filterFindings true [f]).2.1.excluded_findings = [] := by
  have h1 : getExclusionReason f = none := by
    unfold getExclusionReason fgetD
    rw [hc, hd, hf]
    rfl
  refine ⟨h1, ?_, ?_⟩ <;>
    simp [filterFindings, runFilter_eq, keepP, exclF, h1]

/-- Witness for C8: a finding carrying only a severity field is kept
unchanged. -/
theorem c8_missing_fields_fail_open_witness :
    fget ([("severity", "HIGH")]) ("category") = none ∧
    getExclusionReason [("severity", "HIGH")] = none ∧
    (filterFindings true [[("severity", "HIGH")]]).2.1.filtered_findings
      = [[("severity", "HIGH")]] :=
  ⟨rfl, (c8_missing_fields_fail_open [("severity", "HIGH")] rfl rfl rfl).1,
   (c8_missing_fields_fail_open [("severity", "HIGH")] rfl rfl rfl).2.1⟩

/-- C9: every excluded entry is a reason-tagged copy.  Each element of
the excluded sequence arises from an input finding whose exclusion
reason matched: the entry equals that finding with `exclusion_reason`
set, carries that added field, and agrees with the original on every
other key.  (The original finding value itself is never modified: the
embedding of the loop only ever builds the copy.) -/
theorem c9_excluded_are_tagged_copies (u : Bool) (fs : List Finding)
    (e : Finding)
    (he : e ∈ (filterFindings u fs).2.1.excluded_findings) :
    ∃ f r, f ∈ fs ∧ getExclusionReason f = some r ∧
      e = setKey f ("exclusion_reason") r ∧
      fget e ("exclusion_reason") = some r ∧
      ∀ k, k ≠ "exclusion_reason" → fget e k = fget f k := by
  have hx : (filterFindings u fs).2.1.excluded_findings
      = fs.filterMap (exclF u) := by
    simp [filterFindings, runFilter_eq]
  rw [hx, List.mem_filterMap] at he
  obtain ⟨f, hfmem, hfe⟩ := he
  cases u with
  | false => simp [exclF] at hfe
  | true =>
    cases hr : getExclusionReason f with
    | none => simp [exclF, hr] at hfe
    | some r =>
      simp [exclF, hr] at hfe
      refine ⟨f, r, hfmem, hr, hfe.symm, ?_, ?_⟩
      · rw [← hfe]
        exact fget_setKey_self f _ r
      · intro k hk
        rw [← hfe]
        exact fget_setKey_ne f _ r k hk

/-- Witness for C9 at the excluded `dos` finding. -/
theorem c9_excluded_are_tagged_copies_witness :
    (setKey dosF ("exclusion_reason") ("excluded_category:dos"))
        ∈ (filterFindings true [dosF]).2.1.excluded_findings ∧
    (∃ f r, f ∈ [dosF] ∧ getExclusionReason f = some r ∧
      setKey dosF ("exclusion_reason") ("excluded_category:dos")
        = setKey f ("exclusion_reason") r ∧
      fget (setKey dosF ("exclusion_reason") ("excluded_category:dos"))
          ("exclusion_reason") = some r ∧
      ∀ k, k ≠ "exclusion_reason" →
        fget (setKey dosF ("exclusion_reason") ("excluded_category:dos")) k
          = fget f k) :=
  ⟨by decide, c9_excluded_are_tagged_copies true [dosF] _ (by decide)⟩

/-- C6: the spec's example scenario.  Input: the `dos` finding and the
`sqli` finding; kept is exactly the `sqli` finding, excluded is exactly
the `dos` finding tagged `excluded_category:dos`, and the stats read
total 2, kept 1, hard-excluded 1. -/
theorem c6_example_scenario :
    (filterFindings true [dosF, sqliF]).2.1.filtered_findings = [sqliF] ∧
    (filterFindings true [dosF, sqliF]).2.1.excluded_findings =
      [[("category", "dos"), ("description", "x"),
        ("exclusion_reason", "excluded_category:dos")]] ∧
    (filterFindings true [dosF, sqliF]).2.2.total_findings = 2 ∧
    (filterFindings true [dosF, sqliF]).2.2.kept_findings = 1 ∧
    (filterFindings true [dosF, sqliF]).2.2.hard_excluded = 1 :=
  ⟨rfl, rfl, rfl, rfl, rfl⟩

/-! # Decoder theorems -/

theorem pyStrip_nil_of_all_space (l : List Char)
    (h : l.all pyIsSpace = true) : pyStrip l = [] := by
  unfold pyStrip
  have h1 : l.dropWhile pyIsSpace = [] :=
    List.dropWhile_eq_nil_iff.mpr (fun x hx => (List.all_eq_true.mp h) x hx)
  rw [h1]
  simp

/-- C7: empty or whitespace-only input makes `decode` fail immediately
with a null value; and `decode` is a total function, always returning
through the `(success, value)` pair (the embedding is a pure total
function, mirroring the source's catch-all error handling: no input
raises). -/
theorem c7_decode_whitespace_total (s : String)
    (h : s.toList.all pyIsSpace = true) :
    decode s = (false, none) ∧
    ∀ t : String, ∃ (b : Bool) (v : Option JsonVal), decode t = (b, v) := by
  constructor
  · have h1 : pyStrip s.data = [] := pyStrip_nil_of_all_space _ h
    simp [decode, h1]
  · intro t
    exact ⟨_, _, rfl⟩

/-- Witness for C7 at a concrete whitespace-only string. -/
theorem c7_decode_whitespace_total_witness :
    (("  \n\t ").toList.all pyIsSpace = true) ∧
    decode ("  \n\t ") = (false, none) :=
  ⟨by decide, (c7_decode_whitespace_total ("  \n\t ") (by decide)).1⟩

/-- C2 counterexample: the text `He said "{" then {"a": 1}` contains
exactly one balanced bracketed region, `("\x7ba": 1)`-shaped, which the
quote-aware scan recovers and which parses — yet `decode` fails on the
whole text, because the scan starts at the text's first brace, which
sits inside a quoted string literal of the prose; the quote toggling
then hides the real region.  This refutes the claim as stated. -/
theorem c2_brace_in_prose_quote_counterexample :
    scanBody '\x7b' '\x7d' [] ("\x7b\"a\": 1\x7d".toList) 0 false false
      = some ("\x7b\"a\": 1\x7d".toList) ∧
    parseJson ("\x7b\"a\": 1\x7d".toList)
      = some (JsonVal.obj [("a", JsonVal.num ("1"))]) ∧
    decode ("He said \"\x7b\" then \x7b\"a\": 1\x7d") = (false, none) :=
  ⟨rfl, rfl, rfl⟩

theorem dropUntilChar_append (c : Char) (rest : List Char)
    (hhead : rest.head? = some c) : ∀ pre : List Char, c ∉ pre →
    dropUntilChar c (pre ++ rest) = some rest := by
  intro pre
  induction pre with
  | nil =>
    intro _
    cases rest with
    | nil => simp at hhead
    | cons x xs =>
      simp at hhead
      subst hhead
      simp [dropUntilChar]
  | cons a pre' ih =>
    intro hpre
    have ha : ¬(a = c) := fun hac => hpre (hac ▸ List.mem_cons_self a pre')
    rw [List.cons_append]
    simp only [dropUntilChar, ha, if_false]
    exact ih (fun hc => hpre (List.mem_cons_of_mem a hc))

/-- C2 (amended): bracket recovery with quote-awareness, restricted to
texts in which no `\x7b` occurs before the region (in particular none
inside an earlier quoted prose literal).  If the text splits as
`pre ++ rest` with no opening brace in `pre` and `rest` starting at
one, the quote-aware scan of `rest` yields a candidate `R` that parses
to `v`, and neither direct parse nor fenced-block extraction succeeds,
then `decode` returns exactly `v`.  Braces inside string literals of
the region (handled by the scan) and a stray closing brace in the
prose are harmless; an earlier opening brace inside a quoted prose
literal is what the counterexample shows to break recovery. -/
theorem c2_amended_bracket_recovery (text : String) (pre rest R : List Char)
    (v : JsonVal)
    (hsplit : text.toList = pre ++ rest)
    (hpre : '\x7b' ∉ pre)
    (hhead : rest.head? = some '\x7b')
    (hstrip : (pyStrip text.toList).isEmpty = false)
    (hdirect : parseJson (pyStrip text.toList) = none)
    (hfence : fenced text.toList = none)
    (hscan : scanBody '\x7b' '\x7d' [] rest 0 false false = some R)
    (hparse : parseJson R = some v) :
    decode text = (true, some v) := by
  have hdrop : dropUntilChar '\x7b' text.data = some rest := by
    show dropUntilChar '\x7b' text.toList = some rest
    rw [hsplit]
    exact dropUntilChar_append _ _ hhead pre hpre
  have htry : tryDelim '\x7b' '\x7d' text.data = some v := by
    simp [tryDelim, hdrop, hscan, hparse]
  have hstrip' : (pyStrip text.data).isEmpty = false := hstrip
  have hdirect' : parseJson (pyStrip text.data) = none := hdirect
  have hfence' : fenced text.data = none := hfence
  simp [decode, hstrip', hdirect', hfence', htry]

/-- Witness for the amended C2: a JSON object whose string field
contains braces, embedded in prose with a stray closing brace after
the region, is recovered exactly. -/
theorem c2_amended_bracket_recovery_witness :
    ('\x7b' ∉ c2pre) ∧
    scanBody '\x7b' '\x7d' [] c2rest 0 false false = some c2region ∧
    decode c2text = (true, some c2val) :=
  ⟨by decide, rfl,
   c2_amended_bracket_recovery c2text c2pre c2rest c2region c2val rfl
     (by decide) rfl rfl rfl rfl rfl rfl⟩

end GeminiSec
